import Mathlib

/-!
Verification of the LITIV dataset streaming-packet pipeline
(`src/modules/datasets/src/utils.cpp`): the `lv::DataPrecacher` single-worker
packet precacher, the `lv::DataWriter` multi-worker packet writer, and the
`lv::IDataLoader` facade redirects.

Modelling conventions:
* A packet (`cv::Mat`) is its byte payload, a `List Nat`; its byte size
  (`total()*elemSize()`) is the list length.  The empty mat is `[]`.
* `size_t` counters (packet indices, byte offsets, byte counts) are modelled
  as unbounded `Nat`.  All additions in the source act on quantities that stay
  far below `2^64` in any feasible execution (buffer sizes are clamped to
  `CACHE_MAX_SIZE`, indices count packets), so plain `Nat` addition is exact
  there.  The sentinel `size_t(-1)` is the explicit constant `SIZE_MAX`.
  The one wrap-sensitive comparison, `m_nReqIdx != nNextExpectedReqIdx-1`
  (`DataPrecacher::entry`, line 142), is modelled as `req + 1 ≠ nextExpected`:
  for `nextExpected = 0` the C++ right-hand side wraps to `SIZE_MAX`, which is
  not a feasible packet index, and both models make the comparison true for
  every feasible request.
* The request/reply rendezvous between `getPacket` and the worker thread is
  sequentialized: each request published by `getPacket` is served exactly once
  by the worker (the retry loop in `getPacket` only re-notifies until that
  service happens), and worker timeout fill passes may interleave arbitrarily
  between requests.  `std::map` is modelled as an association list sorted by
  key.  The cache stores the bytes copied into the scratch buffer together
  with the scratch offset; the packet index of each entry is recorded at push
  time (in the source it is implicit: entries are pushed at consecutive
  `nNextPrecacheIdx` values).
-/

namespace Litiv

/-- Byte payload of one packet (`cv::Mat`); the empty packet is `[]`. -/
abbrev Packet := List Nat

/-- The value `size_t(-1)`, used by the source as a sentinel and as the
`SIZE_MAX` drop marker of `DataWriter::queue`. -/
def SIZE_MAX : Nat := 2 ^ 64 - 1

/-- The compile-time cache ceiling `CACHE_MAX_SIZE`.  `CACHE_MAX_SIZE_GB` is
set in `defines.hpp` which is not under `src/`; the spec gives 6 GiB on
64-bit.  No claim depends on the exact value, only on the clamping. -/
def CACHE_MAX_SIZE : Nat := 6 * 1024 * 1024 * 1024

/-- One entry of the precacher cache queue `qoCache`: the bytes copied into
the scratch buffer, the byte offset they were copied to, and (ghost data,
implicit in the source) the packet index they were loaded for. -/
structure CacheEnt where
  idx : Nat
  off : Nat
  pkt : Packet
deriving Repr, DecidableEq

/-- The local state of the `DataPrecacher::entry` worker loop:
`qoCache`, `nNextExpectedReqIdx`, `nNextPrecacheIdx`, `nFirstBufferIdx`,
`nNextBufferIdx`, and the reply slot `m_oReqPacket` it publishes. -/
structure WorkerState where
  cache : List CacheEnt
  nextExpected : Nat
  nextPrecache : Nat
  firstBufferIdx : Nat
  nextBufferIdx : Nat
  reqPacket : Packet
deriving Repr, DecidableEq

/-- Initial worker-loop state (`DataPrecacher::entry`, lines 118-123; the
reply slot `m_oReqPacket` starts as the default empty mat). -/
def initWorker : WorkerState :=
  { cache := [], nextExpected := 0, nextPrecache := 0,
    firstBufferIdx := 0, nextBufferIdx := 0, reqPacket := [] }

/-- Prefill pass (`DataPrecacher::entry`, lines 127-139).  The loop is bounded
by the wall clock (`PRECACHE_PREFILL_TIMEOUT_MS`); `fuel` is the number of
iterations the clock allows, and every theorem quantifies over it.  An
iteration loads the next packet and caches it when it is non-empty and fits
strictly below the buffer end, and otherwise breaks. -/
def prefillLoop (load : Nat → Packet) (C : Nat) : Nat → WorkerState → WorkerState
  | 0, st => st
  | fuel + 1, st =>
    let p := load st.nextPrecache
    let sz := p.length
    if 0 < sz ∧ st.nextBufferIdx + sz < C then
      prefillLoop load C fuel
        { st with cache := st.cache ++ [⟨st.nextPrecache, st.nextBufferIdx, p⟩],
                  nextBufferIdx := st.nextBufferIdx + sz,
                  nextPrecache := st.nextPrecache + 1 }
    else st

/-- Flush-and-reload service (`DataPrecacher::entry`, lines 159-162 and
169-171, identical bodies): destroy the cache, answer the request manually
through the callback, poison the buffer offsets, and resynchronise both
expected indices past the request. -/
def flushServe (load : Nat → Packet) (req : Nat) (st : WorkerState) : WorkerState :=
  { st with cache := [], reqPacket := load req,
            firstBufferIdx := SIZE_MAX, nextBufferIdx := SIZE_MAX,
            nextExpected := req + 1, nextPrecache := req + 1 }

/-- Pop loop of the in-range service (`DataPrecacher::entry`, lines 148-153):
`count` times, publish the cache front as the reply, record its scratch
offset in `nFirstBufferIdx`, pop it and advance `nNextExpectedReqIdx`.
The source loop condition `m_nReqIdx-nNextExpectedReqIdx+1>0` makes `count`
equal to `req + 1 - nextExpected` at entry.  The empty-cache case is
unreachable under the branch guard (in C++ it would be `front()` on an empty
queue). -/
def popLoop : Nat → WorkerState → WorkerState
  | 0, st => st
  | count + 1, st =>
    match st.cache with
    | [] => st
    | e :: rest =>
      popLoop count
        { st with reqPacket := e.pkt, firstBufferIdx := e.off,
                  cache := rest, nextExpected := st.nextExpected + 1 }

/-- Request service (`DataPrecacher::entry`, lines 142-178).  Returns the new
worker state and the list of loader-callback invocations it makes.  The three
branches: repeat of the last delivered index re-publishes the same reply
slot; an in-range request with a non-empty cache pops up to it; anything else
flushes and reloads synchronously. -/
def serveRequest (load : Nat → Packet) (req : Nat) (st : WorkerState) :
    WorkerState × List Nat :=
  if req + 1 ≠ st.nextExpected then
    if st.cache ≠ [] then
      if req < st.nextPrecache ∧ st.nextExpected ≤ req then
        (popLoop (req + 1 - st.nextExpected) st, [])
      else (flushServe load req st, [req])
    else (flushServe load req st, [req])
  else (st, [])

/-- Occupied scratch bytes (`DataPrecacher::entry`, line 181). -/
def usedBufferSize (C : Nat) (st : WorkerState) : Nat :=
  if st.firstBufferIdx = SIZE_MAX then 0
  else if st.firstBufferIdx < st.nextBufferIdx then
    st.nextBufferIdx - st.firstBufferIdx
  else C - st.firstBufferIdx + st.nextBufferIdx

/-- One iteration body of the opportunistic fill loop (`DataPrecacher::entry`,
lines 188-219).  `none` is a `break`; `some (sz, st)` carries the cached
packet size (added to `nUsedBufferSize` by the caller) and the new state
(`++nNextPrecacheIdx` folded in).  An empty packet breaks; otherwise the
packet goes at `nNextBufferIdx`, or wraps to offset 0, or the pass stops when
it would reach into the occupied region. -/
def fillStep (load : Nat → Packet) (C : Nat) (st : WorkerState) :
    Option (Nat × WorkerState) :=
  let p := load st.nextPrecache
  let sz := p.length
  if sz = 0 then none
  else if st.firstBufferIdx ≤ st.nextBufferIdx then
    if st.nextBufferIdx = SIZE_MAX ∨ st.nextBufferIdx + sz ≥ C then
      if (st.firstBufferIdx ≠ SIZE_MAX ∧ sz ≥ st.firstBufferIdx) ∨ sz ≥ C then none
      else
        some (sz, { st with cache := st.cache ++ [⟨st.nextPrecache, 0, p⟩],
                            nextBufferIdx := sz,
                            firstBufferIdx := if st.firstBufferIdx = SIZE_MAX then 0
                                              else st.firstBufferIdx,
                            nextPrecache := st.nextPrecache + 1 })
    else
      some (sz, { st with cache := st.cache ++ [⟨st.nextPrecache, st.nextBufferIdx, p⟩],
                          nextBufferIdx := st.nextBufferIdx + sz,
                          nextPrecache := st.nextPrecache + 1 })
  else if st.nextBufferIdx + sz < st.firstBufferIdx then
    some (sz, { st with cache := st.cache ++ [⟨st.nextPrecache, st.nextBufferIdx, p⟩],
                        nextBufferIdx := st.nextBufferIdx + sz,
                        nextPrecache := st.nextPrecache + 1 })
  else none

/-- The fill loop (`DataPrecacher::entry`, lines 186-220):
`while(nUsedBufferSize<nBufferSize && nFillCount<10)`.  The source declares
`nFillCount`, initialises it to 0 and tests it, but never increments it; the
model mirrors that faithfully.  `fuel` only makes the recursion structural:
each iteration adds a positive packet size to `used`, so with the `C + 1`
fuel given by `fillPass` the guard `used < C` always fails before the fuel
does. -/
def fillLoop (load : Nat → Packet) (C : Nat) :
    Nat → Nat → Nat → WorkerState → WorkerState
  | 0, _, _, st => st
  | fuel + 1, used, fillCount, st =>
    if used < C ∧ fillCount < 10 then
      match fillStep load C st with
      | none => st
      | some (sz, st') => fillLoop load C fuel (used + sz) fillCount st'
    else st

/-- Worker timeout branch (`DataPrecacher::entry`, lines 180-222): when the
occupied bytes are below a quarter of the buffer, run the fill loop. -/
def fillPass (load : Nat → Packet) (C : Nat) (st : WorkerState) : WorkerState :=
  let used := usedBufferSize C st
  if used < C / 4 then fillLoop load C (C + 1) used 0 st else st

/-- Caller-side state of a `DataPrecacher`: the activity flag, the memoised
last request (`m_nLastReqIdx` / `m_oLastReqPacket`), the buffer size captured
by the worker thread, and the worker-loop state. -/
structure PrecacherState where
  isActive : Bool
  lastReqIdx : Nat
  lastReqPacket : Packet
  bufferSize : Nat
  worker : WorkerState
deriving Repr, DecidableEq

/-- State right after the `DataPrecacher` constructor: inactive,
`m_nLastReqIdx = size_t(-1)`, empty memoised packet. -/
def initPrecacher : PrecacherState :=
  { isActive := false, lastReqIdx := SIZE_MAX, lastReqPacket := [],
    bufferSize := 0, worker := initWorker }

/-- The full `DataPrecacher::getPacket` (lines 71-93): the memo fast path, the
inactive synchronous path, and the asynchronous rendezvous (sequentialized:
the worker serves the published request once).  Returns the delivered packet,
the new state, and the loader-callback invocations made during the call. -/
def getPacket (load : Nat → Packet) (s : PrecacherState) (idx : Nat) :
    Packet × PrecacherState × List Nat :=
  if idx = s.lastReqIdx then (s.lastReqPacket, s, [])
  else if s.isActive = false then
    (load idx, { s with lastReqIdx := idx, lastReqPacket := load idx }, [idx])
  else
    let r := serveRequest load idx s.worker
    (r.1.reqPacket,
     { s with lastReqIdx := idx, lastReqPacket := r.1.reqPacket, worker := r.1 },
     r.2)

/-- `DataPrecacher::startAsyncPrecaching` (lines 95-107): stop a running
worker, then, when the suggested buffer size is positive, clamp it to
`CACHE_MAX_SIZE` and spawn one worker thread, whose entry runs the prefill
pass (with `prefillFuel` iterations allowed by the prefill clock).  Returns
the `m_bIsActive` result, the number of threads spawned, and the state. -/
def startAsyncPrecaching (load : Nat → Packet) (prefillFuel : Nat)
    (s : PrecacherState) (suggested : Nat) : Bool × Nat × PrecacherState :=
  let s0 := if s.isActive then { s with isActive := false } else s
  if 0 < suggested then
    let C := if suggested > CACHE_MAX_SIZE then CACHE_MAX_SIZE else suggested
    (true, 1,
     { s0 with isActive := true, bufferSize := C,
               worker := prefillLoop load C prefillFuel initWorker })
  else (false, 0, s0)

/-- One observable operation on a running precacher: a consumer `getPacket`
call, or a worker query timeout (which triggers the opportunistic fill). -/
inductive PrecacherOp where
  | get (idx : Nat)
  | fill
deriving Repr, DecidableEq

/-- Feasibility of one operation: requested indices are genuine `size_t`
packet indices, i.e. below the `size_t(-1)` sentinel. -/
def PrecacherOp.feasible : PrecacherOp → Prop
  | .get idx => idx < SIZE_MAX
  | .fill => True

instance : DecidablePred PrecacherOp.feasible := fun op => by
  unfold PrecacherOp.feasible
  cases op <;> infer_instance

/-- Transition of one operation on the precacher state.  A fill op is a
worker-loop timeout; it does nothing when the precacher is inactive (there is
no worker). -/
def stepOp (load : Nat → Packet) (s : PrecacherState) : PrecacherOp → PrecacherState
  | .get idx => (getPacket load s idx).2.1
  | .fill =>
    if s.isActive then { s with worker := fillPass load s.bufferSize s.worker }
    else s

/-- State after a sequence of operations. -/
def runOps (load : Nat → Packet) : PrecacherState → List PrecacherOp → PrecacherState
  | s, [] => s
  | s, op :: rest => runOps load (stepOp load s op) rest

/-- Packets delivered to the consumer by the `get` operations of a run, in
order. -/
def runOutputs (load : Nat → Packet) : PrecacherState → List PrecacherOp → List Packet
  | _, [] => []
  | s, .get idx :: rest =>
    (getPacket load s idx).1 :: runOutputs load (stepOp load s (.get idx)) rest
  | s, .fill :: rest => runOutputs load (stepOp load s .fill) rest

/-- The indices requested by the `get` operations of a run, in order. -/
def requestsOf : List PrecacherOp → List Nat
  | [] => []
  | .get idx :: rest => idx :: requestsOf rest
  | .fill :: rest => requestsOf rest

/-- The packet indices currently held in the cache queue, oldest first. -/
def cacheIdxs (w : WorkerState) : List Nat := w.cache.map (·.idx)

/-- State of a `lv::DataWriter`: `m_bIsActive`, `m_bAllowPacketDrop`,
`m_nQueueMaxSize`, `m_nQueueSize`, `m_nQueueCount`, and the pending map
`m_mQueue` (a `std::map<size_t,cv::Mat>`, modelled as an association list
sorted strictly by key). -/
structure WriterState where
  isActive : Bool
  allowDrop : Bool
  queueMaxSize : Nat
  queueSize : Nat
  queueCount : Nat
  pending : List (Nat × Packet)
deriving Repr, DecidableEq

/-- State right after the `DataWriter` constructor (lines 587-594; the
constructor leaves `m_nQueueMaxSize` unset, taken as 0 here). -/
def initWriter : WriterState :=
  { isActive := false, allowDrop := false, queueMaxSize := 0,
    queueSize := 0, queueCount := 0, pending := [] }

/-- Sorted-insert-or-assign, the model of `m_mQueue[nIdx] = packet`: an
existing entry with the same key has its packet replaced, otherwise the entry
is inserted at its sorted position. -/
def mapInsert : List (Nat × Packet) → Nat → Packet → List (Nat × Packet)
  | [], k, v => [(k, v)]
  | (k', v') :: rest, k, v =>
    if k < k' then (k, v) :: (k', v') :: rest
    else if k = k' then (k, v) :: rest
    else (k', v') :: mapInsert rest k v

/-- The model of `std::distance(m_mQueue.begin(), m_mQueue.find(nIdx))`: the
position of the key in the ordered map. -/
def mapPos (m : List (Nat × Packet)) (k : Nat) : Nat :=
  m.findIdx (fun e => e.1 == k)

/-- Result of `DataWriter::queue`: a returned position (possibly the
`SIZE_MAX` drop marker), or the caller suspended on `m_oClearCondVar`
waiting for a worker to free space. -/
inductive QueueResult where
  | ret (pos : Nat)
  | blocked
deriving Repr, DecidableEq

/-- `DataWriter::queue` (lines 600-630): inactive calls go synchronously to
the archiver callback; otherwise a copy of the packet is queued when it fits
under `m_nQueueMaxSize`, the caller blocks when it does not fit and drops are
disallowed, and the `SIZE_MAX` marker is returned when it does not fit and
drops are allowed. -/
def DataWriter.queue (sink : Packet → Nat → Nat) (st : WriterState)
    (pkt : Packet) (idx : Nat) : QueueResult × WriterState :=
  if st.isActive = false then (.ret (sink pkt idx), st)
  else
    let sz := pkt.length
    if st.allowDrop = false ∧ st.queueSize + sz > st.queueMaxSize then (.blocked, st)
    else if st.queueSize + sz ≤ st.queueMaxSize then
      let pending := mapInsert st.pending idx pkt
      (.ret (mapPos pending idx),
       { st with pending := pending, queueSize := st.queueSize + sz,
                 queueCount := st.queueCount + 1 })
    else (.ret SIZE_MAX, st)

/-- `DataWriter::startAsyncWriting` (lines 632-646): stop a running writer,
then, when the suggested queue size is positive, record the parameters
(clamping the byte ceiling to `CACHE_MAX_SIZE`), clear the queue state and
spawn `nWorkers` drain threads.  Returns the `m_bIsActive` result, the number
of threads spawned, and the state. -/
def startAsyncWriting (st : WriterState) (suggested : Nat) (drop : Bool)
    (nWorkers : Nat) : Bool × Nat × WriterState :=
  let st0 := if st.isActive then { st with isActive := false } else st
  if 0 < suggested then
    (true, nWorkers,
     { isActive := true, allowDrop := drop,
       queueMaxSize := if suggested > CACHE_MAX_SIZE then CACHE_MAX_SIZE else suggested,
       queueSize := 0, queueCount := 0, pending := [] })
  else (false, 0, st0)

/-- Result of one worker drain iteration: nothing to do (the worker waits on
`m_oQueueCondVar`), an `lvAssert_` failure, or a packet extracted and handed
to the sink. -/
inductive DrainResult where
  | idle
  | assertFail (msg : String)
  | sunk (idx : Nat) (pkt : Packet) (st : WriterState)
deriving Repr, DecidableEq

/-- One iteration of the `DataWriter::entry` worker loop body (lines
662-678): when `m_nQueueCount > 0`, take `m_mQueue.begin()` (the smallest
key), assert it exists and that its size fits the byte counter, subtract its
size, erase it, decrement the count, and call the sink outside the mutex. -/
def DataWriter.drainStep (st : WriterState) : DrainResult :=
  if st.queueCount = 0 then .idle
  else
    match st.pending with
    | [] => .assertFail "data writer notified for missing packet"
    | e :: rest =>
      if st.queueSize < e.2.length then
        .assertFail "data writer packet size exceeds queue size"
      else
        .sunk e.1 e.2
          { st with pending := rest, queueSize := st.queueSize - e.2.length,
                    queueCount := st.queueCount - 1 }

/-- Successive single-worker drain iterations, collecting the `(index,
packet)` pairs handed to the sink in order, until the queue empties, an
assertion fires, or `fuel` runs out. -/
def drainTrace : WriterState → Nat → List (Nat × Packet)
  | _, 0 => []
  | st, fuel + 1 =>
    match DataWriter.drainStep st with
    | .sunk i p st' => (i, p) :: drainTrace st' fuel
    | _ => []

/-- Collaborators of one `IDataLoader` facade, as abstract operations: the
batch size `getTotPackets()`, the dataset-specific `_get*Packet_impl` load
functions, the packet-policy flags, and the normalising transforms
(`cv::transpose`, `cv::cvtColor` BGR→BGRA, `cv::resize` nearest-neighbour)
with the predicates guarding them. -/
structure FacadeOps where
  totPackets : Nat
  inputImpl : Nat → Packet
  gtImpl : Nat → Packet
  inputIsImage : Bool
  gtPixelMapping : Bool
  aligned4 : Bool
  inputTransposed : Nat → Bool
  gtTransposed : Nat → Bool
  inputOrigSizeOk : Nat → Packet → Bool
  gtOrigSizeOk : Nat → Packet → Bool
  hasThreeChannels : Packet → Bool
  inputSizeMismatch : Nat → Packet → Bool
  gtSizeMismatch : Nat → Packet → Bool
  transposeOp : Packet → Packet
  cvtColorOp : Packet → Packet
  resizeOp : Nat → Packet → Packet

/-- `IDataLoader::_getInputPacket_redirect` (lines 245-267): out-of-range
indices return the empty mat immediately; otherwise the dataset load runs,
and a non-empty image packet is checked against its declared original size
(`none` models the `lvAssert_` failure) and normalised.  The result carries
the packet, the number of `_getInputPacket_impl` invocations, and the number
of transform applications. -/
def getInputPacket_redirect (f : FacadeOps) (idx : Nat) :
    Option (Packet × Nat × Nat) :=
  if f.totPackets ≤ idx then some ([], 0, 0)
  else
    let p := f.inputImpl idx
    if p.length = 0 then some (p, 1, 0)
    else if f.inputOrigSizeOk idx p = false then none
    else if f.inputIsImage then
      let r1 := if f.inputTransposed idx then (f.transposeOp p, 1) else (p, 0)
      let r2 := if f.aligned4 ∧ f.hasThreeChannels r1.1 then (f.cvtColorOp r1.1, 1)
                else (r1.1, 0)
      let r3 := if f.inputSizeMismatch idx r2.1 then (f.resizeOp idx r2.1, 1)
                else (r2.1, 0)
      some (r3.1, 1, r1.2 + r2.2 + r3.2)
    else some (p, 1, 0)

/-- `IDataLoader::_getGTPacket_redirect` (lines 269-291): same shape as the
input redirect, with the normalisation guarded by `m_eGTMappingType ==
PixelMapping && m_eInputType == ImagePacket` and the ground-truth
accessors. -/
def getGTPacket_redirect (f : FacadeOps) (idx : Nat) :
    Option (Packet × Nat × Nat) :=
  if f.totPackets ≤ idx then some ([], 0, 0)
  else
    let p := f.gtImpl idx
    if p.length = 0 then some (p, 1, 0)
    else if f.gtOrigSizeOk idx p = false then none
    else if f.gtPixelMapping ∧ f.inputIsImage then
      let r1 := if f.gtTransposed idx then (f.transposeOp p, 1) else (p, 0)
      let r2 := if f.aligned4 ∧ f.hasThreeChannels r1.1 then (f.cvtColorOp r1.1, 1)
                else (r1.1, 0)
      let r3 := if f.gtSizeMismatch idx r2.1 then (f.resizeOp idx r2.1, 1)
                else (r2.1, 0)
      some (r3.1, 1, r1.2 + r2.2 + r3.2)
    else some (p, 1, 0)

/-!
Invariant of the precacher worker loop.  `cache_load` / `cache_pos`: every
cached entry holds the (non-empty) bytes the loader returned for its index;
`cache_range`: the cached indices are exactly the contiguous range
`[nNextExpectedReqIdx, nNextPrecacheIdx)`, oldest first; `reply_ok`: once a
request has been answered, the reply slot holds the packet of index
`nNextExpectedReqIdx - 1`.
-/

structure WInv (load : Nat → Packet) (w : WorkerState) : Prop where
  cache_load : ∀ e ∈ w.cache, e.pkt = load e.idx
  cache_pos : ∀ e ∈ w.cache, 0 < e.pkt.length
  range_le : w.nextExpected ≤ w.nextPrecache
  cache_range : cacheIdxs w = List.range' w.nextExpected (w.nextPrecache - w.nextExpected)
  reply_ok : w.nextExpected ≠ 0 → w.reqPacket = load (w.nextExpected - 1)

theorem winv_init (load : Nat → Packet) : WInv load initWorker := by
  refine ⟨?_, ?_, ?_, ?_, ?_⟩ <;> simp [initWorker, cacheIdxs]

theorem winv_push {load : Nat → Packet} {w w' : WorkerState} {off : Nat} {p : Packet}
    (h : WInv load w) (hp : p = load w.nextPrecache) (hpos : 0 < p.length)
    (hc : w'.cache = w.cache ++ [⟨w.nextPrecache, off, p⟩])
    (he : w'.nextExpected = w.nextExpected)
    (hq : w'.nextPrecache = w.nextPrecache + 1)
    (hr : w'.reqPacket = w.reqPacket) : WInv load w' := by
  refine ⟨?_, ?_, ?_, ?_, ?_⟩
  · intro e he'
    rw [hc] at he'
    rcases List.mem_append.1 he' with h1 | h1
    · exact h.cache_load e h1
    · simp only [List.mem_singleton] at h1
      subst h1
      exact hp
  · intro e he'
    rw [hc] at he'
    rcases List.mem_append.1 he' with h1 | h1
    · exact h.cache_pos e h1
    · simp only [List.mem_singleton] at h1
      subst h1
      exact hpos
  · rw [he, hq]
    exact Nat.le_trans h.range_le (Nat.le_succ _)
  · have hstep : w.nextPrecache + 1 - w.nextExpected
        = (w.nextPrecache - w.nextExpected) + 1 := by
      have := h.range_le
      omega
    rw [cacheIdxs, hc, List.map_append, he, hq, hstep, List.range'_1_concat]
    have hfold : w.cache.map (·.idx) = cacheIdxs w := rfl
    rw [hfold, h.cache_range, Nat.add_sub_cancel' h.range_le]
    rfl
  · rw [he, hr]
    exact h.reply_ok

theorem winv_prefill (load : Nat → Packet) (C : Nat) :
    ∀ (fuel : Nat) (w : WorkerState), WInv load w →
    WInv load (prefillLoop load C fuel w) := by
  intro fuel
  induction fuel with
  | zero => exact fun w h => h
  | succ n ih =>
    intro w h
    rw [prefillLoop]
    split
    · rename_i hcond
      exact ih _ (winv_push h rfl hcond.1 rfl rfl rfl rfl)
    · exact h

theorem fillStep_some {load : Nat → Packet} {C : Nat} {st w' : WorkerState} {sz : Nat}
    (h : fillStep load C st = some (sz, w')) :
    sz = (load st.nextPrecache).length ∧ 0 < sz ∧
    ∃ off, w'.cache = st.cache ++ [⟨st.nextPrecache, off, load st.nextPrecache⟩] ∧
      w'.nextExpected = st.nextExpected ∧ w'.nextPrecache = st.nextPrecache + 1 ∧
      w'.reqPacket = st.reqPacket := by
  simp only [fillStep] at h
  split_ifs at h <;>
  first
    | exact Option.noConfusion h
    | (rw [Option.some.injEq, Prod.mk.injEq] at h
       obtain ⟨hsz, hw⟩ := h
       subst hsz
       subst hw
       first
         | exact ⟨rfl, Nat.pos_of_ne_zero (by assumption), 0, rfl, rfl, rfl, rfl⟩
         | exact ⟨rfl, Nat.pos_of_ne_zero (by assumption),
             st.nextBufferIdx, rfl, rfl, rfl, rfl⟩)

theorem winv_fillStep {load : Nat → Packet} {C : Nat} {st w' : WorkerState} {sz : Nat}
    (hfs : fillStep load C st = some (sz, w')) (h : WInv load st) : WInv load w' := by
  obtain ⟨hsz, hpos, off, hc, he, hq, hr⟩ := fillStep_some hfs
  exact winv_push h rfl (hsz ▸ hpos) hc he hq hr

theorem winv_fillLoop (load : Nat → Packet) (C : Nat) :
    ∀ (fuel used fc : Nat) (w : WorkerState), WInv load w →
    WInv load (fillLoop load C fuel used fc w) := by
  intro fuel
  induction fuel with
  | zero => exact fun _ _ w h => h
  | succ n ih =>
    intro used fc w h
    rw [fillLoop]
    split
    · cases hfs : fillStep load C w with
      | none => simp only [hfs]; exact h
      | some pr =>
        obtain ⟨sz, st'⟩ := pr
        simp only [hfs]
        exact ih _ _ _ (winv_fillStep hfs h)
    · exact h

theorem winv_fillPass {load : Nat → Packet} {C : Nat} {w : WorkerState}
    (h : WInv load w) : WInv load (fillPass load C w) := by
  simp only [fillPass]
  split
  · exact winv_fillLoop load C (C + 1) _ 0 w h
  · exact h

theorem winv_flushServe (load : Nat → Packet) (req : Nat) (w : WorkerState) :
    WInv load (flushServe load req w) := by
  refine ⟨?_, ?_, ?_, ?_, ?_⟩ <;> simp [flushServe, cacheIdxs]

theorem popLoop_spec {load : Nat → Packet} :
    ∀ (j : Nat) (w : WorkerState), WInv load w →
    j ≤ w.nextPrecache - w.nextExpected →
    WInv load (popLoop j w) ∧
    (popLoop j w).nextExpected = w.nextExpected + j ∧
    (popLoop j w).nextPrecache = w.nextPrecache ∧
    (0 < j → (popLoop j w).reqPacket = load (w.nextExpected + j - 1)) := by
  intro j
  induction j with
  | zero =>
    intro w h _
    exact ⟨h, rfl, rfl, fun h0 => absurd h0 (Nat.lt_irrefl 0)⟩
  | succ n ih =>
    intro w h hj
    have hlen : w.cache.length = w.nextPrecache - w.nextExpected := by
      have := congrArg List.length h.cache_range
      simpa [cacheIdxs] using this
    obtain ⟨e, rest, hcache⟩ : ∃ e rest, w.cache = e :: rest := by
      cases hc : w.cache with
      | nil =>
        exfalso
        rw [hc] at hlen
        simp at hlen
        omega
      | cons e rest => exact ⟨e, rest, rfl⟩
    have hsplit : w.nextPrecache - w.nextExpected
        = (w.nextPrecache - w.nextExpected - 1) + 1 := by omega
    have hrange := h.cache_range
    rw [cacheIdxs, hcache, hsplit, List.range'_succ] at hrange
    simp only [List.map_cons, List.cons.injEq] at hrange
    obtain ⟨hidx, hrest⟩ := hrange
    have hmem : e ∈ w.cache := by rw [hcache]; exact List.mem_cons_self e rest
    have hw1 : WInv load
        { w with reqPacket := e.pkt, firstBufferIdx := e.off,
                 cache := rest, nextExpected := w.nextExpected + 1 } := by
      refine ⟨?_, ?_, ?_, ?_, ?_⟩
      · intro x hx
        exact h.cache_load x (by rw [hcache]; exact List.mem_cons_of_mem e hx)
      · intro x hx
        exact h.cache_pos x (by rw [hcache]; exact List.mem_cons_of_mem e hx)
      · simp only
        omega
      · show rest.map (·.idx) = _
        rw [hrest]
        congr 1
      · intro _
        show e.pkt = load (w.nextExpected + 1 - 1)
        rw [h.cache_load e hmem, hidx]
        congr 1
    have hstep : popLoop (n + 1) w
        = popLoop n { w with reqPacket := e.pkt, firstBufferIdx := e.off,
                             cache := rest, nextExpected := w.nextExpected + 1 } := by
      rw [popLoop, hcache]
    obtain ⟨h1, h2, h3, h4⟩ := ih _ hw1 (by simp only; omega)
    rw [hstep]
    refine ⟨h1, by rw [h2]; simp only; omega, by rw [h3], ?_⟩
    intro _
    rcases Nat.eq_zero_or_pos n with hn | hn
    · subst hn
      show (popLoop 0 _).reqPacket = _
      rw [popLoop]
      show e.pkt = load (w.nextExpected + (0 + 1) - 1)
      rw [h.cache_load e hmem, hidx]
      congr 1
    · rw [h4 hn]
      congr 1
      simp only
      omega

theorem serve_spec {load : Nat → Packet} {req : Nat} {w : WorkerState}
    (h : WInv load w) :
    WInv load (serveRequest load req w).1 ∧
    (serveRequest load req w).1.reqPacket = load req := by
  unfold serveRequest
  split
  · rename_i hne
    split
    · rename_i hcne
      split
      · rename_i hin
        have hj : req + 1 - w.nextExpected ≤ w.nextPrecache - w.nextExpected := by
          omega
        obtain ⟨h1, h2, h3, h4⟩ := popLoop_spec (req + 1 - w.nextExpected) w h hj
        refine ⟨h1, ?_⟩
        rw [h4 (by omega)]
        congr 1
        omega
      · exact ⟨winv_flushServe load req w, by simp [flushServe]⟩
    · exact ⟨winv_flushServe load req w, by simp [flushServe]⟩
  · rename_i heq
    have heq' : req + 1 = w.nextExpected := by
      by_contra hc
      exact heq hc
    refine ⟨h, ?_⟩
    rw [h.reply_ok (by omega)]
    congr 1
    omega

/-- Full invariant of a precacher: the worker invariant, plus correctness of
the caller-side memo (`m_oLastReqPacket` holds the loader result for
`m_nLastReqIdx` once that index is a real request). -/
def Inv (load : Nat → Packet) (s : PrecacherState) : Prop :=
  WInv load s.worker ∧
  (s.lastReqIdx ≠ SIZE_MAX → s.lastReqPacket = load s.lastReqIdx)

theorem getPacket_spec {load : Nat → Packet} {s : PrecacherState} {idx : Nat}
    (h : Inv load s) (hidx : idx < SIZE_MAX) :
    (getPacket load s idx).1 = load idx ∧ Inv load (getPacket load s idx).2.1 := by
  unfold getPacket
  split
  · rename_i heq
    have hlast : s.lastReqIdx ≠ SIZE_MAX := by omega
    exact ⟨by rw [h.2 hlast, ← heq], h⟩
  · split
    · refine ⟨rfl, h.1, ?_⟩
      intro _
      rfl
    · obtain ⟨hw, hr⟩ := @serve_spec load idx s.worker h.1
      refine ⟨hr, hw, ?_⟩
      intro _
      exact hr

theorem stepOp_spec {load : Nat → Packet} {s : PrecacherState}
    (h : Inv load s) :
    ∀ op : PrecacherOp, op.feasible → Inv load (stepOp load s op) := by
  intro op hop
  cases op with
  | get idx =>
    exact (getPacket_spec h hop).2
  | fill =>
    show Inv load
      (if s.isActive then { s with worker := fillPass load s.bufferSize s.worker }
       else s)
    split
    · exact ⟨winv_fillPass h.1, h.2⟩
    · exact h

theorem runOps_spec {load : Nat → Packet} :
    ∀ (ops : List PrecacherOp) (s : PrecacherState), Inv load s →
    (∀ op ∈ ops, op.feasible) →
    Inv load (runOps load s ops) ∧
    runOutputs load s ops = (requestsOf ops).map load := by
  intro ops
  induction ops with
  | nil => exact fun s h _ => ⟨h, rfl⟩
  | cons op rest ih =>
    intro s h hf
    have hop : op.feasible := hf op (List.mem_cons_self op rest)
    have hrest : ∀ o ∈ rest, o.feasible :=
      fun o ho => hf o (List.mem_cons_of_mem op ho)
    obtain ⟨h1, h2⟩ := ih (stepOp load s op) (stepOp_spec h op hop) hrest
    cases op with
    | get idx =>
      refine ⟨h1, ?_⟩
      show (getPacket load s idx).1 :: _ = load idx :: _
      rw [(getPacket_spec h hop).1, h2]
    | fill =>
      exact ⟨h1, h2⟩

theorem inv_initPrecacher (load : Nat → Packet) : Inv load initPrecacher := by
  refine ⟨winv_init load, ?_⟩
  intro hne
  exact absurd rfl hne

theorem inv_startAsyncPrecaching {load : Nat → Packet} {k : Nat}
    {s : PrecacherState} {suggested : Nat} (h : Inv load s) :
    Inv load (startAsyncPrecaching load k s suggested).2.2 := by
  obtain ⟨hw, hl⟩ := h
  by_cases ha : s.isActive = true <;>
    simp only [startAsyncPrecaching, ha] <;>
    split
  all_goals
    first
      | exact ⟨winv_prefill load _ k _ (winv_init load), fun hne => hl hne⟩
      | exact ⟨hw, fun hne => hl hne⟩

theorem getPacket_memo {load : Nat → Packet} {s : PrecacherState} {idx : Nat}
    (h : s.lastReqIdx = idx) :
    getPacket load s idx = (s.lastReqPacket, s, []) := by
  unfold getPacket
  rw [if_pos h.symm]

/-- C1: for every index `i` in `[0, N)` served by a deterministic loader
callback, `getPacket(i)` returns a packet whose bytes equal those returned by
the callback for `i` — under sequential access, under random access
(including backward jumps), and both with and without async precaching
enabled.  `ops` is an arbitrary interleaving of `getPacket` calls (arbitrary
feasible indices, so any sequential, random, or backward access pattern) and
worker fill timeouts; the first conjunct is the precaching run (any buffer
size, any prefill duration), the second the bypass run. -/
theorem C1_precacher_roundtrip (load : Nat → Packet) (C k : Nat)
    (ops : List PrecacherOp) (hops : ∀ op ∈ ops, op.feasible) :
    runOutputs load (startAsyncPrecaching load k initPrecacher C).2.2 ops
      = (requestsOf ops).map load ∧
    runOutputs load initPrecacher ops = (requestsOf ops).map load :=
  ⟨(runOps_spec ops _ (inv_startAsyncPrecaching (inv_initPrecacher load)) hops).2,
   (runOps_spec ops _ (inv_initPrecacher load) hops).2⟩

theorem C1_precacher_roundtrip_witness :
    (∀ op ∈ ([.get 0, .get 1, .fill, .get 3, .get 2, .get 2, .get 7] :
        List PrecacherOp), op.feasible) ∧
    (runOutputs (fun i => [i % 256, 7])
        (startAsyncPrecaching (fun i => [i % 256, 7]) 4 initPrecacher 32).2.2
        [.get 0, .get 1, .fill, .get 3, .get 2, .get 2, .get 7]
      = (requestsOf [.get 0, .get 1, .fill, .get 3, .get 2, .get 2, .get 7]).map
          (fun i => [i % 256, 7]) ∧
     runOutputs (fun i => [i % 256, 7]) initPrecacher
        [.get 0, .get 1, .fill, .get 3, .get 2, .get 2, .get 7]
      = (requestsOf [.get 0, .get 1, .fill, .get 3, .get 2, .get 2, .get 7]).map
          (fun i => [i % 256, 7])) :=
  ⟨by decide,
   C1_precacher_roundtrip (fun i => [i % 256, 7]) 32 4
     [.get 0, .get 1, .fill, .get 3, .get 2, .get 2, .get 7] (by decide)⟩

/-- C6: after every Precacher worker operation (prefill, serving a request in
any of its three branches, or an opportunistic fill), the packet indices held
in the cache queue form exactly the contiguous range
`[next_expected, next_precache)`, oldest first.  `ops` ranges over arbitrary
interleavings of request services and fill passes after a start with any
buffer size and any prefill duration. -/
theorem C6_cache_contiguous_range (load : Nat → Packet) (C k : Nat)
    (ops : List PrecacherOp) (hops : ∀ op ∈ ops, op.feasible) :
    cacheIdxs (runOps load (startAsyncPrecaching load k initPrecacher C).2.2 ops).worker
      = List.range'
          (runOps load (startAsyncPrecaching load k initPrecacher C).2.2
            ops).worker.nextExpected
          ((runOps load (startAsyncPrecaching load k initPrecacher C).2.2
            ops).worker.nextPrecache
            - (runOps load (startAsyncPrecaching load k initPrecacher C).2.2
                ops).worker.nextExpected) :=
  ((runOps_spec ops _ (inv_startAsyncPrecaching (inv_initPrecacher load)) hops).1).1.cache_range

theorem C6_cache_contiguous_range_witness :
    (∀ op ∈ ([.get 0, .fill, .get 2, .get 1, .fill] : List PrecacherOp),
        op.feasible) ∧
    cacheIdxs (runOps (fun i => [i])
        (startAsyncPrecaching (fun i => [i]) 3 initPrecacher 16).2.2
        [.get 0, .fill, .get 2, .get 1, .fill]).worker
      = List.range'
          (runOps (fun i => [i])
            (startAsyncPrecaching (fun i => [i]) 3 initPrecacher 16).2.2
            [.get 0, .fill, .get 2, .get 1, .fill]).worker.nextExpected
          ((runOps (fun i => [i])
            (startAsyncPrecaching (fun i => [i]) 3 initPrecacher 16).2.2
            [.get 0, .fill, .get 2, .get 1, .fill]).worker.nextPrecache
            - (runOps (fun i => [i])
                (startAsyncPrecaching (fun i => [i]) 3 initPrecacher 16).2.2
                [.get 0, .fill, .get 2, .get 1, .fill]).worker.nextExpected) :=
  ⟨by decide,
   C6_cache_contiguous_range (fun i => [i]) 16 3
     [.get 0, .fill, .get 2, .get 1, .fill] (by decide)⟩

/-- C7: for every index `i`, calling `getPacket(i)` twice in succession
returns identical bytes, and the second call does not invoke the loader
callback — from any precacher state, so both when precaching is inactive and
when it is active.  The second call also leaves the state unchanged. -/
theorem C7_idempotent_rerequest (load : Nat → Packet) (s : PrecacherState)
    (idx : Nat) :
    (getPacket load (getPacket load s idx).2.1 idx).1 = (getPacket load s idx).1 ∧
    (getPacket load (getPacket load s idx).2.1 idx).2.2 = [] ∧
    (getPacket load (getPacket load s idx).2.1 idx).2.1 = (getPacket load s idx).2.1 := by
  have hmain : ((getPacket load s idx).2.1).lastReqIdx = idx ∧
      ((getPacket load s idx).2.1).lastReqPacket = (getPacket load s idx).1 := by
    unfold getPacket
    split
    · rename_i heq
      exact ⟨heq.symm, rfl⟩
    · split <;> exact ⟨rfl, rfl⟩
  rw [getPacket_memo hmain.1]
  exact ⟨hmain.2, rfl, rfl⟩

/-- C8: an empty packet (byte length 0) returned by the loader callback is
never enqueued into the Precacher cache queue: every cached entry of every
reachable state is non-empty, and both the prefill pass and the opportunistic
fill pass terminate upon receiving an empty packet without pushing it (they
return the state unchanged, and the worker loop keeps running: the step
functions are total and subsequent operations are still processed). -/
theorem C8_empty_packet_never_enqueued (load : Nat → Packet) (C k fuel : Nat)
    (ops : List PrecacherOp) (w : WorkerState)
    (hops : ∀ op ∈ ops, op.feasible) (hempty : load w.nextPrecache = []) :
    (∀ e ∈ (runOps load (startAsyncPrecaching load k initPrecacher C).2.2
        ops).worker.cache, 0 < e.pkt.length) ∧
    fillPass load C w = w ∧ prefillLoop load C fuel w = w := by
  refine ⟨((runOps_spec ops _ (inv_startAsyncPrecaching (inv_initPrecacher load))
      hops).1).1.cache_pos, ?_, ?_⟩
  · have hfs : fillStep load C w = none := by
      simp [fillStep, hempty]
    simp only [fillPass]
    split
    · simp only [fillLoop, hfs]
      split <;> rfl
    · rfl
  · cases fuel with
    | zero => rfl
    | succ n =>
      rw [prefillLoop]
      simp [hempty]

/-- Loader used by the C8 witness: two one-byte packets, then end-of-stream. -/
def load8 : Nat → Packet := fun i => if i < 2 then [i] else []

/-- Worker state used by the C8 witness, with `nextPrecache` pointing at the
end-of-stream index. -/
def w8 : WorkerState := flushServe load8 1 initWorker

theorem C8_empty_packet_never_enqueued_witness :
    ((∀ op ∈ ([.get 0, .get 1, .fill] : List PrecacherOp), op.feasible) ∧
     load8 w8.nextPrecache = []) ∧
    ((∀ e ∈ (runOps load8 (startAsyncPrecaching load8 5 initPrecacher 16).2.2
        [.get 0, .get 1, .fill]).worker.cache, 0 < e.pkt.length) ∧
     fillPass load8 16 w8 = w8 ∧ prefillLoop load8 16 7 w8 = w8) :=
  ⟨⟨by decide, by decide⟩,
   C8_empty_packet_never_enqueued load8 16 5 7 [.get 0, .get 1, .fill] w8
     (by decide) (by decide)⟩

/-- C3: the claim states that a fill pass triggered by a query timeout with
used bytes below `C/4` enqueues at most 10 packets.  The source declares
`nFillCount`, initialises it to 0 and guards the loop with `nFillCount<10`,
but never increments it, so the 10-packet budget is vacuous: with a 64-byte
buffer, a freshly flushed cache and a loader producing 1-byte packets, a
single fill pass enqueues 63 packets.  This theorem evaluates the code at
that failing input. -/
theorem C3_fill_pass_exceeds_budget_eval :
    usedBufferSize 64 (flushServe (fun _ => [0]) 5 initWorker) < 64 / 4 ∧
    (fillPass (fun _ => [0]) 64 (flushServe (fun _ => [0]) 5 initWorker)).cache.length
      = 63 ∧
    10 < (fillPass (fun _ => [0]) 64
        (flushServe (fun _ => [0]) 5 initWorker)).cache.length := by
  decide

/-- C2: the claim states that `queued_bytes` equals the sum of the payload
lengths of the entries of `pending`, and that queueing under an index already
present replaces the old length in the byte count.  The source instead adds
the new length without subtracting the replaced one (`DataWriter::queue`,
lines 611-615) and double-increments `m_nQueueCount`: after queueing a 2-byte
then a 3-byte packet under index 0, `queued_bytes` is 5 while the map holds a
single 3-byte entry, and after the lone entry is drained the worker's own
assertion `data writer notified for missing packet` fires.  This theorem
evaluates the code at that failing input. -/
theorem C2_duplicate_insert_breaks_accounting_eval :
    (let sink0 : Packet → Nat → Nat := fun _ _ => 0
     let st0 := (startAsyncWriting initWriter 100 false 1).2.2
     let s1 := (DataWriter.queue sink0 st0 [1, 2] 0).2
     let s2 := (DataWriter.queue sink0 s1 [3, 4, 5] 0).2
     s2.queueSize = 5 ∧ (s2.pending.map (fun x => x.2.length)).sum = 3 ∧
     s2.queueSize ≠ (s2.pending.map (fun x => x.2.length)).sum ∧
     s2.queueCount = 2 ∧ s2.pending.length = 1 ∧
     DataWriter.drainStep s2 = .sunk 0 [3, 4, 5]
        { isActive := true, allowDrop := false, queueMaxSize := 100,
          queueSize := 2, queueCount := 1, pending := [] } ∧
     DataWriter.drainStep
        { isActive := true, allowDrop := false, queueMaxSize := 100,
          queueSize := 2, queueCount := 1, pending := [] }
       = .assertFail "data writer notified for missing packet") := by
  decide

theorem queue_bypass {sink : Packet → Nat → Nat} {st : WriterState}
    {pkt : Packet} {idx : Nat} (h : st.isActive = false) :
    DataWriter.queue sink st pkt idx = (.ret (sink pkt idx), st) := by
  simp only [DataWriter.queue]
  rw [if_pos h]

/-- C4: the `queue()` push contract.  If the writer is not active, the sink
callback runs synchronously and its result is returned.  If active and the
packet fits (`queued_bytes + len ≤ max_bytes`), a copy is inserted into the
pending map and the packet's position in the ordered map is returned.  If
active with `drop_on_full = true` and the packet would overflow, the
`SIZE_MAX` drop marker is returned without blocking; with `drop_on_full =
true` no call ever blocks. -/
theorem C4_queue_push_contract (sink : Packet → Nat → Nat) (st : WriterState)
    (pkt : Packet) (idx : Nat) :
    (st.isActive = false →
        DataWriter.queue sink st pkt idx = (.ret (sink pkt idx), st)) ∧
    (st.isActive = true → st.queueSize + pkt.length ≤ st.queueMaxSize →
        DataWriter.queue sink st pkt idx
          = (.ret (mapPos (mapInsert st.pending idx pkt) idx),
             { st with pending := mapInsert st.pending idx pkt,
                       queueSize := st.queueSize + pkt.length,
                       queueCount := st.queueCount + 1 })) ∧
    (st.isActive = true → st.allowDrop = true →
        st.queueMaxSize < st.queueSize + pkt.length →
        DataWriter.queue sink st pkt idx = (.ret SIZE_MAX, st)) ∧
    (st.allowDrop = true →
        (DataWriter.queue sink st pkt idx).1 ≠ QueueResult.blocked) := by
  refine ⟨fun h => queue_bypass h, ?_, ?_, ?_⟩
  · intro ha hfit
    simp only [DataWriter.queue]
    rw [if_neg (by simp [ha]), if_neg (fun h => absurd h.2 (by omega)),
        if_pos hfit]
  · intro ha hd hover
    simp only [DataWriter.queue]
    rw [if_neg (by simp [ha]), if_neg (by simp [hd]), if_neg (by omega)]
  · intro hd
    simp only [DataWriter.queue]
    split
    · simp
    · split
      · rename_i hcond
        rw [hd] at hcond
        exact absurd hcond.1 (by simp)
      · split <;> simp

theorem C4_queue_push_contract_witness :
    ((initWriter.isActive = false ∧
      DataWriter.queue (fun p i => p.length + i) initWriter [4, 4] 9
        = (.ret 11, initWriter)) ∧
     (let stB : WriterState :=
        { isActive := true, allowDrop := false, queueMaxSize := 10,
          queueSize := 3, queueCount := 1, pending := [(5, [1, 2, 3])] }
      stB.isActive = true ∧ stB.queueSize + ([7, 7] : Packet).length ≤ stB.queueMaxSize ∧
      DataWriter.queue (fun p i => p.length + i) stB [7, 7] 2
        = (.ret 0,
           { stB with pending := mapInsert stB.pending 2 [7, 7],
                      queueSize := stB.queueSize + ([7, 7] : Packet).length,
                      queueCount := stB.queueCount + 1 }))) ∧
    (let stC : WriterState :=
       { isActive := true, allowDrop := true, queueMaxSize := 4,
         queueSize := 3, queueCount := 1, pending := [(5, [1, 2, 3])] }
     stC.isActive = true ∧ stC.allowDrop = true ∧
     stC.queueMaxSize < stC.queueSize + ([7, 7] : Packet).length ∧
     DataWriter.queue (fun p i => p.length + i) stC [7, 7] 2 = (.ret SIZE_MAX, stC) ∧
     (DataWriter.queue (fun p i => p.length + i) stC [7, 7] 2).1
       ≠ QueueResult.blocked) :=
  ⟨⟨⟨rfl, by
      have h := (C4_queue_push_contract (fun p i => p.length + i) initWriter
        [4, 4] 9).1 rfl
      simpa using h⟩,
    by
      refine ⟨rfl, by decide, ?_⟩
      exact (C4_queue_push_contract (fun p i => p.length + i) _ [7, 7] 2).2.1
        rfl (by decide)⟩,
   by
     refine ⟨rfl, rfl, by decide, ?_, ?_⟩
     · exact (C4_queue_push_contract (fun p i => p.length + i) _ [7, 7] 2).2.2.1
         rfl rfl (by decide)
     · exact (C4_queue_push_contract (fun p i => p.length + i) _ [7, 7] 2).2.2.2
         rfl⟩

theorem drainStep_sunk {st : WriterState} {e : Nat × Packet}
    {rest : List (Nat × Packet)} (hp : st.pending = e :: rest)
    (hc : st.queueCount ≠ 0) (hs : e.2.length ≤ st.queueSize) :
    DataWriter.drainStep st
      = .sunk e.1 e.2
          { st with pending := rest, queueSize := st.queueSize - e.2.length,
                    queueCount := st.queueCount - 1 } := by
  unfold DataWriter.drainStep
  rw [if_neg hc, hp]
  exact if_neg (Nat.not_lt.2 hs)

theorem drainTrace_complete :
    ∀ (l : List (Nat × Packet)) (st : WriterState),
    st.pending = l → st.queueCount = l.length →
    st.queueSize = (l.map (fun x => x.2.length)).sum →
    drainTrace st l.length = l := by
  intro l
  induction l with
  | nil => intro st _ _ _; rfl
  | cons e rest ih =>
    intro st hp hc hs
    simp only [List.map_cons, List.sum_cons] at hs
    simp only [List.length_cons] at hc
    have hstep := drainStep_sunk hp (by omega) (by omega)
    show drainTrace st (rest.length + 1) = e :: rest
    rw [drainTrace, hstep]
    show (e.1, e.2) :: drainTrace _ rest.length = e :: rest
    rw [ih _ rfl (by simp only; omega) (by simp only; omega)]

/-- C5: every Writer worker drain step removes the pending entry with the
smallest index, subtracts its length from `queued_bytes`, and passes exactly
that packet and index to the sink; hence with a single worker, sink
invocations occur in ascending order of the smallest pending key at the
moment of each selection (under the byte-accounting consistency the claim
presupposes, the full single-worker drain trace lists the pending entries in
strictly ascending key order). -/
theorem C5_writer_drains_smallest_first (st : WriterState) (e : Nat × Packet)
    (rest : List (Nat × Packet)) (hp : st.pending = e :: rest)
    (hsort : st.pending.Pairwise (fun a b => a.1 < b.1))
    (hcount : st.queueCount = st.pending.length)
    (hsz : e.2.length ≤ st.queueSize) :
    DataWriter.drainStep st
      = .sunk e.1 e.2
          { st with pending := rest, queueSize := st.queueSize - e.2.length,
                    queueCount := st.queueCount - 1 } ∧
    (∀ x ∈ st.pending, e.1 ≤ x.1) ∧
    (st.queueSize = (st.pending.map (fun x => x.2.length)).sum →
        (drainTrace st st.queueCount).map Prod.fst = st.pending.map Prod.fst ∧
        ((drainTrace st st.queueCount).map Prod.fst).Pairwise (· < ·)) := by
  have hc0 : st.queueCount ≠ 0 := by
    rw [hcount, hp]
    simp
  refine ⟨drainStep_sunk hp hc0 hsz, ?_, ?_⟩
  · intro x hx
    rw [hp] at hx hsort
    rcases List.mem_cons.1 hx with h1 | h1
    · rw [h1]
    · exact Nat.le_of_lt ((List.pairwise_cons.1 hsort).1 x h1)
  · intro hsum
    have ht : drainTrace st st.queueCount = st.pending := by
      rw [hcount]
      exact drainTrace_complete st.pending st rfl hcount hsum
    rw [ht]
    exact ⟨rfl, List.pairwise_map.2 hsort⟩

theorem C5_writer_drains_smallest_first_witness :
    (let stD : WriterState :=
       { isActive := true, allowDrop := false, queueMaxSize := 100,
         queueSize := 3, queueCount := 2, pending := [(1, [9]), (3, [8, 8])] }
     stD.pending = (1, ([9] : Packet)) :: [(3, [8, 8])] ∧
     stD.pending.Pairwise (fun a b => a.1 < b.1) ∧
     stD.queueCount = stD.pending.length ∧
     ([9] : Packet).length ≤ stD.queueSize ∧
     (DataWriter.drainStep stD
        = .sunk 1 [9]
            { stD with pending := [(3, [8, 8])],
                       queueSize := stD.queueSize - ([9] : Packet).length,
                       queueCount := stD.queueCount - 1 } ∧
      (∀ x ∈ stD.pending, 1 ≤ x.1) ∧
      (stD.queueSize = (stD.pending.map (fun x => x.2.length)).sum →
          (drainTrace stD stD.queueCount).map Prod.fst
            = stD.pending.map Prod.fst ∧
          ((drainTrace stD stD.queueCount).map Prod.fst).Pairwise (· < ·)))) :=
  ⟨rfl, by decide, rfl, by decide,
   C5_writer_drains_smallest_first _ (1, [9]) [(3, [8, 8])] rfl (by decide) rfl
     (by decide)⟩

/-- C9: for every packet index greater than or equal to the batch's total
packet count, the loader facade's input and ground-truth callbacks return an
empty packet without invoking the dataset-specific load function or any
normalising transform (the impl-invocation and transform-application counts
are both 0). -/
theorem C9_out_of_range_returns_empty (f : FacadeOps) (idx : Nat)
    (h : f.totPackets ≤ idx) :
    getInputPacket_redirect f idx = some ([], 0, 0) ∧
    getGTPacket_redirect f idx = some ([], 0, 0) := by
  constructor
  · simp only [getInputPacket_redirect]
    rw [if_pos h]
  · simp only [getGTPacket_redirect]
    rw [if_pos h]

/-- Facade instance used by the C9 witness. -/
def facade9 : FacadeOps :=
  { totPackets := 5, inputImpl := fun i => [i, i], gtImpl := fun i => [i],
    inputIsImage := true, gtPixelMapping := true, aligned4 := true,
    inputTransposed := fun _ => false, gtTransposed := fun _ => false,
    inputOrigSizeOk := fun _ _ => true, gtOrigSizeOk := fun _ _ => true,
    hasThreeChannels := fun _ => false,
    inputSizeMismatch := fun _ _ => false, gtSizeMismatch := fun _ _ => false,
    transposeOp := fun p => p.reverse, cvtColorOp := fun p => p ++ [0],
    resizeOp := fun _ p => p }

theorem C9_out_of_range_returns_empty_witness :
    facade9.totPackets ≤ 7 ∧
    (getInputPacket_redirect facade9 7 = some ([], 0, 0) ∧
     getGTPacket_redirect facade9 7 = some ([], 0, 0)) :=
  ⟨by decide, C9_out_of_range_returns_empty facade9 7 (by decide)⟩

theorem startAsyncPrecaching_zero (load : Nat → Packet) (k : Nat)
    (s : PrecacherState) :
    startAsyncPrecaching load k s 0
      = (false, 0, if s.isActive then { s with isActive := false } else s) := by
  simp [startAsyncPrecaching]

theorem startAsyncWriting_zero (st : WriterState) (drop : Bool) (n : Nat) :
    startAsyncWriting st 0 drop n
      = (false, 0, if st.isActive then { st with isActive := false } else st) := by
  simp [startAsyncWriting]

theorem getPacket_bypass {load : Nat → Packet} {s : PrecacherState} (idx : Nat)
    (h : s.isActive = false) :
    getPacket load s idx
      = (if idx = s.lastReqIdx then (s.lastReqPacket, s, [])
         else (load idx,
               { s with lastReqIdx := idx, lastReqPacket := load idx }, [idx])) := by
  unfold getPacket
  by_cases hidx : idx = s.lastReqIdx
  · simp [hidx]
  · simp [hidx, h]

/-- C10: starting the Precacher with a suggested buffer size of 0, or the
Writer with a suggested queue size of 0, spawns no worker thread, leaves the
engine inactive, and returns `false`; subsequent `getPacket` and `queue`
calls then take the synchronous (bypass) path: `getPacket` answers from the
memo or calls the loader directly, and `queue` calls the sink callback
synchronously and returns its result. -/
theorem C10_zero_size_start_stays_synchronous (load : Nat → Packet) (k : Nat)
    (s : PrecacherState) (st : WriterState) (drop : Bool) (n : Nat)
    (sink : Packet → Nat → Nat) (pkt : Packet) (idx : Nat) :
    (startAsyncPrecaching load k s 0).1 = false ∧
    (startAsyncPrecaching load k s 0).2.1 = 0 ∧
    (startAsyncPrecaching load k s 0).2.2.isActive = false ∧
    getPacket load (startAsyncPrecaching load k s 0).2.2 idx
      = (if idx = (startAsyncPrecaching load k s 0).2.2.lastReqIdx
         then ((startAsyncPrecaching load k s 0).2.2.lastReqPacket,
               (startAsyncPrecaching load k s 0).2.2, [])
         else (load idx,
               { (startAsyncPrecaching load k s 0).2.2 with
                   lastReqIdx := idx, lastReqPacket := load idx }, [idx])) ∧
    (startAsyncWriting st 0 drop n).1 = false ∧
    (startAsyncWriting st 0 drop n).2.1 = 0 ∧
    (startAsyncWriting st 0 drop n).2.2.isActive = false ∧
    DataWriter.queue sink (startAsyncWriting st 0 drop n).2.2 pkt idx
      = (.ret (sink pkt idx), (startAsyncWriting st 0 drop n).2.2) := by
  have hp : (startAsyncPrecaching load k s 0).2.2.isActive = false := by
    rw [startAsyncPrecaching_zero]
    split <;> simp_all
  have hwr : (startAsyncWriting st 0 drop n).2.2.isActive = false := by
    rw [startAsyncWriting_zero]
    split <;> simp_all
  refine ⟨?_, ?_, hp, getPacket_bypass idx hp, ?_, ?_, hwr, queue_bypass hwr⟩
  · rw [startAsyncPrecaching_zero]
  · rw [startAsyncPrecaching_zero]
  · rw [startAsyncWriting_zero]
  · rw [startAsyncWriting_zero]

end Litiv
